import Mathlib

/-!
Shallow embedding of `ADApp/ADSrc/CCDMultiTrack.cpp` (class `CCDMultiTrack`).

The class owns three parallel `std::vector<int>` members (`mTrackStart`,
`mTrackEnd`, `mTrackBin`) plus three integer parameter identifiers assigned
at construction, and exposes the mutators `writeTrackStart`, `writeTrackEnd`,
`writeTrackBin`, the dispatcher `writeInt32Array`, and the accessor
`DataHeight` (total).  Machine ints are modelled as `Int` (no arithmetic in
the code can overflow for the inputs considered; C `%` on int is truncated
remainder, modelled by `Int.tmod`, and C `/` by `Int.tdiv`).

A C++ mutator can `throw std::string` in the middle of its update loop; the
object then keeps the partially updated vector.  Each mutator is therefore
modelled as a function returning the post-state (partial updates included),
the list of `doCallbacksInt32Array` notifications it issued, and an
`Option String` holding the thrown message (`none` = normal return).
-/

/-- A `doCallbacksInt32Array` notification: which logical array was pushed
to observers, with the array value at the time of the callback. -/
inductive Notify where
  | endChanged : List Int → Notify
  | binChanged : List Int → Notify
  deriving DecidableEq, Repr

/-- Return status of `writeInt32Array` (`asynStatus` in asyn). -/
inductive AsynStatus where
  | asynSuccess : AsynStatus
  | asynError : AsynStatus
  deriving DecidableEq, Repr

/-- The state of a `CCDMultiTrack` object: the three parameter identifiers
created in the constructor and the three track-attribute vectors. -/
structure CCDMultiTrack where
  mCCDMultiTrackStart : Int
  mCCDMultiTrackEnd : Int
  mCCDMultiTrackBin : Int
  mTrackStart : List Int
  mTrackEnd : List Int
  mTrackBin : List Int
  deriving DecidableEq, Repr

namespace CCDMultiTrack

/-- Modelled from the spec: the constructor registers the three parameters
with the port driver; the framework assigns one fresh (hence pairwise
distinct) integer identifier per `createParam` call, here `base`, `base+1`,
`base+2`.  The three vectors start empty ("the TrackSet is created empty"). -/
def construct (base : Int) : CCDMultiTrack :=
  { mCCDMultiTrackStart := base
    mCCDMultiTrackEnd := base + 1
    mCCDMultiTrackBin := base + 2
    mTrackStart := []
    mTrackEnd := []
    mTrackBin := [], }

/-- `std::vector<int>::resize(n)`: keep the first `n` elements, value-initialise
(to 0) any new elements. -/
def resize (l : List Int) (n : Nat) : List Int :=
  l.take n ++ List.replicate (n - l.length) 0

/-- Modelled from the spec: accessor `TrackStart(TrackNum)` of the missing
header `CCDMultiTrack.h` — the stored start for an in-range index, with the
out-of-range fallback value 0 (row indices are 1-based, 0 means unset). -/
def TrackStart (s : CCDMultiTrack) (i : Nat) : Int :=
  s.mTrackStart.getD i 0

/-- Modelled from the spec: accessor `TrackEnd(TrackNum)` of the missing
header — the stored end for an in-range index; "end defaults from start when
absent", i.e. out of range it falls back to `TrackStart`. -/
def TrackEnd (s : CCDMultiTrack) (i : Nat) : Int :=
  s.mTrackEnd.getD i (TrackStart s i)

/-- Modelled from the spec: `TrackHeight(TrackNum) = end[i] - start[i] + 1`
(written `TrackEnd + 1 - TrackStart`), the nominal unbinned height. -/
def TrackHeight (s : CCDMultiTrack) (i : Nat) : Int :=
  TrackEnd s i + 1 - TrackStart s i

/-- Modelled from the spec: accessor `TrackBin(TrackNum)` — the stored bin
for an in-range index; "an unset bin defaults to fully binned", i.e. out of
range it falls back to `TrackHeight`. -/
def TrackBin (s : CCDMultiTrack) (i : Nat) : Int :=
  s.mTrackBin.getD i (TrackHeight s i)

/-- Modelled from the spec: `size()` — the current track count, "length of
the start array, which defines it". -/
def size (s : CCDMultiTrack) : Nat :=
  s.mTrackStart.length

/-- Modelled from the spec: per-track `DataHeight(TrackNum)` — "binned output
height of track i = height(i) / bin(i), integer division" (C `/`, truncated). -/
def DataHeight (s : CCDMultiTrack) (i : Nat) : Int :=
  Int.tdiv (TrackHeight s i) (TrackBin s i)

/-- The validation-and-copy loop of `writeTrackStart` (lines 39-47): for
`TrackNum` from `i` while fewer than `k` steps remain, check
`value[TrackNum] < 1`, then `TrackNum > 0 && value[TrackNum] <=
TrackStart(TrackNum-1)` (the element written on the previous iteration),
then store `value[TrackNum]`.  Returns the vector as left by the loop and
the thrown message, if any. -/
def startLoop (value : List Int) : Nat → Nat → List Int → List Int × Option String
  | 0, _, cur => (cur, none)
  | k + 1, i, cur =>
    if value.getD i 0 < 1 then
      (cur, some "Tracks starts must be >= 1")
    else if 0 < i ∧ value.getD i 0 ≤ cur.getD (i - 1) 0 then
      (cur, some "Tracks starts must be in ascending order")
    else
      startLoop value k (i + 1) (cur.set i (value.getD i 0))

/-- The validation-and-copy loop of `writeTrackEnd` (lines 71-79): same shape
with minimum 2 and the `TrackEnd(TrackNum-1)` comparison. -/
def endLoop (value : List Int) : Nat → Nat → List Int → List Int × Option String
  | 0, _, cur => (cur, none)
  | k + 1, i, cur =>
    if value.getD i 0 < 2 then
      (cur, some "Tracks ends must be >= 2")
    else if 0 < i ∧ value.getD i 0 ≤ cur.getD (i - 1) 0 then
      (cur, some "Tracks ends must be in ascending order")
    else
      endLoop value k (i + 1) (cur.set i (value.getD i 0))

/-- The validation-and-copy loop of `writeTrackBin` (lines 94-102): check
`value[TrackNum] < 1`, then `TrackHeight(TrackNum) % value[TrackNum] != 0`
(heights read from the stored start/end of `s`, untouched by this loop),
then store `value[TrackNum]`. -/
def binLoop (s : CCDMultiTrack) (value : List Int) : Nat → Nat → List Int → List Int × Option String
  | 0, _, cur => (cur, none)
  | k + 1, i, cur =>
    if value.getD i 0 < 1 then
      (cur, some "The track binning must be >= 1.")
    else if Int.tmod (TrackHeight s i) (value.getD i 0) ≠ 0 then
      (cur, some "Track height must be divisible by binning.")
    else
      binLoop s value k (i + 1) (cur.set i (value.getD i 0))

/-- `CCDMultiTrack::writeTrackStart` (lines 36-66): resize `mTrackStart` to
`nElements`, run the validation-and-copy loop; on normal completion compute
the candidate end vector `TrackStart(i) + TrackHeight(i) - 1` and the
candidate bin vector `TrackBin(i)` (both against the new starts and the old
`mTrackEnd`/`mTrackBin`), then commit-and-notify each candidate if it
differs from the stored vector. -/
def writeTrackStart (s : CCDMultiTrack) (value : List Int) (nElements : Nat) :
    CCDMultiTrack × List Notify × Option String :=
  match startLoop value nElements 0 (resize s.mTrackStart nElements) with
  | (cur, some e) => ({ s with mTrackStart := cur }, [], some e)
  | (cur, none) =>
    let s1 := { s with mTrackStart := cur }
    let newEnd := (List.range nElements).map fun i => TrackStart s1 i + TrackHeight s1 i - 1
    let newBin := (List.range nElements).map fun i => TrackBin s1 i
    let r2 := if s1.mTrackEnd = newEnd then (s1, ([] : List Notify))
              else ({ s1 with mTrackEnd := newEnd }, [Notify.endChanged newEnd])
    let r3 := if r2.1.mTrackBin = newBin then (r2.1, ([] : List Notify))
              else ({ r2.1 with mTrackBin := newBin }, [Notify.binChanged newBin])
    (r3.1, r2.2 ++ r3.2, none)

/-- `CCDMultiTrack::writeTrackEnd` (lines 68-89): resize `mTrackEnd` to
`nElements`, run the validation-and-copy loop; on normal completion compute
the candidate bin vector `TrackHeight(i)` (against the new ends and the
stored starts) and commit-and-notify it if it differs from `mTrackBin`. -/
def writeTrackEnd (s : CCDMultiTrack) (value : List Int) (nElements : Nat) :
    CCDMultiTrack × List Notify × Option String :=
  match endLoop value nElements 0 (resize s.mTrackEnd nElements) with
  | (cur, some e) => ({ s with mTrackEnd := cur }, [], some e)
  | (cur, none) =>
    let s1 := { s with mTrackEnd := cur }
    let newBin := (List.range nElements).map fun i => TrackHeight s1 i
    if s1.mTrackBin = newBin then (s1, [], none)
    else ({ s1 with mTrackBin := newBin }, [Notify.binChanged newBin], none)

/-- `CCDMultiTrack::writeTrackBin` (lines 91-103): resize `mTrackBin` to
`nElements` and run the validation-and-copy loop; no recomputation and no
notification. -/
def writeTrackBin (s : CCDMultiTrack) (value : List Int) (nElements : Nat) :
    CCDMultiTrack × List Notify × Option String :=
  match binLoop s value nElements 0 (resize s.mTrackBin nElements) with
  | (cur, e) => ({ s with mTrackBin := cur }, [], e)

/-- `CCDMultiTrack::writeInt32Array` (lines 105-120): route the write by
comparing `pasynUser->reason` with the three parameter identifiers; an
unknown identifier yields `asynError` with no mutation.  The `AsynStatus`
component is the value the C++ function returns when the selected mutator
returns normally; when the mutator throws (third component `some _`) the
C++ call does not return, the exception propagates. -/
def writeInt32Array (s : CCDMultiTrack) (reason : Int) (value : List Int) (nElements : Nat) :
    CCDMultiTrack × List Notify × Option String × AsynStatus :=
  if reason = s.mCCDMultiTrackStart then
    let r := writeTrackStart s value nElements
    (r.1, r.2.1, r.2.2, AsynStatus.asynSuccess)
  else if reason = s.mCCDMultiTrackEnd then
    let r := writeTrackEnd s value nElements
    (r.1, r.2.1, r.2.2, AsynStatus.asynSuccess)
  else if reason = s.mCCDMultiTrackBin then
    let r := writeTrackBin s value nElements
    (r.1, r.2.1, r.2.2, AsynStatus.asynSuccess)
  else
    (s, [], none, AsynStatus.asynError)

/-- `CCDMultiTrack::DataHeight()` (lines 122-128): accumulate
`DataHeight(TrackNum)` over `TrackNum < size()`. -/
def DataHeightTotal (s : CCDMultiTrack) : Int :=
  (List.range (size s)).foldl (fun acc i => acc + DataHeight s i) 0

/-- Validation predicate that `writeTrackStart` enforces on the incoming
array: every value at least 1 and strictly above the new value before it. -/
def startsValid (value : List Int) (n : Nat) : Prop :=
  ∀ i, i < n → 1 ≤ value.getD i 0 ∧ (0 < i → value.getD (i - 1) 0 < value.getD i 0)

/-- Validation predicate that `writeTrackEnd` enforces on the incoming
array: every value at least 2 and strictly above the new value before it. -/
def endsValid (value : List Int) (n : Nat) : Prop :=
  ∀ i, i < n → 2 ≤ value.getD i 0 ∧ (0 < i → value.getD (i - 1) 0 < value.getD i 0)

/-- Validation predicate that `writeTrackBin` enforces against the heights
of state `s`: every value at least 1 and dividing the current track height. -/
def binsValid (s : CCDMultiTrack) (value : List Int) (n : Nat) : Prop :=
  ∀ i, i < n → 1 ≤ value.getD i 0 ∧ Int.tmod (TrackHeight s i) (value.getD i 0) = 0

instance (value : List Int) (n : Nat) : Decidable (startsValid value n) := by
  unfold startsValid; infer_instance

instance (value : List Int) (n : Nat) : Decidable (endsValid value n) := by
  unfold endsValid; infer_instance

instance (s : CCDMultiTrack) (value : List Int) (n : Nat) : Decidable (binsValid s value n) := by
  unfold binsValid; infer_instance

/-! Helper lemmas about list primitives. -/

theorem getD_set_self (l : List Int) (i : Nat) (a : Int) (h : i < l.length) :
    (l.set i a).getD i 0 = a := by
  simp [List.getD_eq_getElem?_getD, List.getElem?_set, h]

theorem getD_set_ne (l : List Int) (i j : Nat) (a : Int) (h : i ≠ j) :
    (l.set i a).getD j 0 = l.getD j 0 := by
  simp [List.getD_eq_getElem?_getD, List.getElem?_set, h]

theorem getD_map_range (f : Nat → Int) (n i : Nat) (h : i < n) :
    ((List.range n).map f).getD i 0 = f i := by
  simp [List.getD_eq_getElem?_getD, List.getElem?_map, List.getElem?_range, h]

theorem resize_length (l : List Int) (n : Nat) : (resize l n).length = n := by
  simp [resize]
  omega

/-! Lemmas about the `writeTrackStart` loop. -/

theorem startLoop_fst_length (v : List Int) :
    ∀ (k i : Nat) (cur : List Int), ((startLoop v k i cur).1).length = cur.length := by
  intro k
  induction k with
  | zero => intro i cur; rfl
  | succ k ih =>
    intro i cur
    simp only [startLoop]
    split
    · rfl
    · split
      · rfl
      · rw [ih]
        simp

theorem startLoop_none_iff (v : List Int) :
    ∀ (k i : Nat) (cur : List Int), i + k ≤ cur.length →
      (∀ j, j < i → cur.getD j 0 = v.getD j 0) →
      ((startLoop v k i cur).2 = none ↔
        ∀ j, i ≤ j → j < i + k →
          1 ≤ v.getD j 0 ∧ (0 < j → v.getD (j - 1) 0 < v.getD j 0)) := by
  intro k
  induction k with
  | zero =>
    intro i cur _ _
    constructor
    · intro _ j h1 h2
      omega
    · intro _
      rfl
  | succ k ih =>
    intro i cur hlen hpre
    simp only [startLoop]
    by_cases h1 : v.getD i 0 < 1
    · rw [if_pos h1]
      constructor
      · intro h
        exact Option.noConfusion h
      · intro hall
        exact absurd ((hall i (le_refl i) (by omega)).1) (by omega)
    · rw [if_neg h1]
      by_cases h2 : 0 < i ∧ v.getD i 0 ≤ cur.getD (i - 1) 0
      · rw [if_pos h2]
        constructor
        · intro h
          exact Option.noConfusion h
        · intro hall
          have hasc := (hall i (le_refl i) (by omega)).2 h2.1
          have hpe : cur.getD (i - 1) 0 = v.getD (i - 1) 0 := hpre (i - 1) (by omega)
          omega
      · rw [if_neg h2]
        have hi : i < cur.length := by omega
        have hlen2 : (i + 1) + k ≤ (cur.set i (v.getD i 0)).length := by
          simp [List.length_set]
          omega
        have hpre2 : ∀ j, j < i + 1 → (cur.set i (v.getD i 0)).getD j 0 = v.getD j 0 := by
          intro j hj
          by_cases hji : j = i
          · subst hji
            exact getD_set_self cur j _ hi
          · rw [getD_set_ne cur i j _ (fun h => hji h.symm)]
            exact hpre j (by omega)
        rw [ih (i + 1) _ hlen2 hpre2]
        constructor
        · intro hall j hij hjk
          by_cases hji : j = i
          · subst hji
            refine ⟨by omega, fun h0 => ?_⟩
            have hpe : cur.getD (j - 1) 0 = v.getD (j - 1) 0 := hpre (j - 1) (by omega)
            omega
          · exact hall j (by omega) (by omega)
        · intro hall j hij hjk
          exact hall j (by omega) (by omega)

theorem startLoop_fst_getD (v : List Int) :
    ∀ (k i : Nat) (cur : List Int), i + k ≤ cur.length →
      (startLoop v k i cur).2 = none →
      ∀ j, ((startLoop v k i cur).1).getD j 0 =
        if i ≤ j ∧ j < i + k then v.getD j 0 else cur.getD j 0 := by
  intro k
  induction k with
  | zero =>
    intro i cur _ _ j
    simp only [startLoop]
    rw [if_neg (by omega)]
  | succ k ih =>
    intro i cur hlen hnone j
    simp only [startLoop] at hnone ⊢
    by_cases h1 : v.getD i 0 < 1
    · rw [if_pos h1] at hnone
      exact Option.noConfusion hnone
    · rw [if_neg h1] at hnone ⊢
      by_cases h2 : 0 < i ∧ v.getD i 0 ≤ cur.getD (i - 1) 0
      · rw [if_pos h2] at hnone
        exact Option.noConfusion hnone
      · rw [if_neg h2] at hnone ⊢
        have hi : i < cur.length := by omega
        have hlen2 : (i + 1) + k ≤ (cur.set i (v.getD i 0)).length := by
          simp [List.length_set]
          omega
        rw [ih (i + 1) _ hlen2 hnone j]
        by_cases hja : i + 1 ≤ j ∧ j < i + 1 + k
        · rw [if_pos hja, if_pos (by omega)]
        · rw [if_neg hja]
          by_cases hji : j = i
          · subst hji
            rw [getD_set_self cur j _ hi, if_pos (by omega)]
          · rw [getD_set_ne cur i j _ (fun h => hji h.symm), if_neg (by omega)]

theorem startLoop_fst_eq (v : List Int) (n : Nat) (cur : List Int) (hlen : cur.length = n)
    (hnone : (startLoop v n 0 cur).2 = none) :
    (startLoop v n 0 cur).1 = (List.range n).map fun j => v.getD j 0 := by
  apply List.ext_getElem
  · rw [startLoop_fst_length]
    simp [hlen]
  · intro j hj1 hj2
    have hjn : j < n := by simpa using hj2
    have hgd := startLoop_fst_getD v n 0 cur (by omega) hnone j
    rw [if_pos ⟨Nat.zero_le j, by omega⟩] at hgd
    rw [← List.getD_eq_getElem _ 0 hj1, hgd, ← getD_map_range (fun j => v.getD j 0) n j hjn,
      List.getD_eq_getElem _ 0 hj2]

/-! Lemmas about the `writeTrackEnd` loop (same shape with minimum 2). -/

theorem endLoop_fst_length (v : List Int) :
    ∀ (k i : Nat) (cur : List Int), ((endLoop v k i cur).1).length = cur.length := by
  intro k
  induction k with
  | zero => intro i cur; rfl
  | succ k ih =>
    intro i cur
    simp only [endLoop]
    split
    · rfl
    · split
      · rfl
      · rw [ih]
        simp

theorem endLoop_none_iff (v : List Int) :
    ∀ (k i : Nat) (cur : List Int), i + k ≤ cur.length →
      (∀ j, j < i → cur.getD j 0 = v.getD j 0) →
      ((endLoop v k i cur).2 = none ↔
        ∀ j, i ≤ j → j < i + k →
          2 ≤ v.getD j 0 ∧ (0 < j → v.getD (j - 1) 0 < v.getD j 0)) := by
  intro k
  induction k with
  | zero =>
    intro i cur _ _
    constructor
    · intro _ j h1 h2
      omega
    · intro _
      rfl
  | succ k ih =>
    intro i cur hlen hpre
    simp only [endLoop]
    by_cases h1 : v.getD i 0 < 2
    · rw [if_pos h1]
      constructor
      · intro h
        exact Option.noConfusion h
      · intro hall
        exact absurd ((hall i (le_refl i) (by omega)).1) (by omega)
    · rw [if_neg h1]
      by_cases h2 : 0 < i ∧ v.getD i 0 ≤ cur.getD (i - 1) 0
      · rw [if_pos h2]
        constructor
        · intro h
          exact Option.noConfusion h
        · intro hall
          have hasc := (hall i (le_refl i) (by omega)).2 h2.1
          have hpe : cur.getD (i - 1) 0 = v.getD (i - 1) 0 := hpre (i - 1) (by omega)
          omega
      · rw [if_neg h2]
        have hi : i < cur.length := by omega
        have hlen2 : (i + 1) + k ≤ (cur.set i (v.getD i 0)).length := by
          simp [List.length_set]
          omega
        have hpre2 : ∀ j, j < i + 1 → (cur.set i (v.getD i 0)).getD j 0 = v.getD j 0 := by
          intro j hj
          by_cases hji : j = i
          · subst hji
            exact getD_set_self cur j _ hi
          · rw [getD_set_ne cur i j _ (fun h => hji h.symm)]
            exact hpre j (by omega)
        rw [ih (i + 1) _ hlen2 hpre2]
        constructor
        · intro hall j hij hjk
          by_cases hji : j = i
          · subst hji
            refine ⟨by omega, fun h0 => ?_⟩
            have hpe : cur.getD (j - 1) 0 = v.getD (j - 1) 0 := hpre (j - 1) (by omega)
            omega
          · exact hall j (by omega) (by omega)
        · intro hall j hij hjk
          exact hall j (by omega) (by omega)

theorem endLoop_fst_getD (v : List Int) :
    ∀ (k i : Nat) (cur : List Int), i + k ≤ cur.length →
      (endLoop v k i cur).2 = none →
      ∀ j, ((endLoop v k i cur).1).getD j 0 =
        if i ≤ j ∧ j < i + k then v.getD j 0 else cur.getD j 0 := by
  intro k
  induction k with
  | zero =>
    intro i cur _ _ j
    simp only [endLoop]
    rw [if_neg (by omega)]
  | succ k ih =>
    intro i cur hlen hnone j
    simp only [endLoop] at hnone ⊢
    by_cases h1 : v.getD i 0 < 2
    · rw [if_pos h1] at hnone
      exact Option.noConfusion hnone
    · rw [if_neg h1] at hnone ⊢
      by_cases h2 : 0 < i ∧ v.getD i 0 ≤ cur.getD (i - 1) 0
      · rw [if_pos h2] at hnone
        exact Option.noConfusion hnone
      · rw [if_neg h2] at hnone ⊢
        have hi : i < cur.length := by omega
        have hlen2 : (i + 1) + k ≤ (cur.set i (v.getD i 0)).length := by
          simp [List.length_set]
          omega
        rw [ih (i + 1) _ hlen2 hnone j]
        by_cases hja : i + 1 ≤ j ∧ j < i + 1 + k
        · rw [if_pos hja, if_pos (by omega)]
        · rw [if_neg hja]
          by_cases hji : j = i
          · subst hji
            rw [getD_set_self cur j _ hi, if_pos (by omega)]
          · rw [getD_set_ne cur i j _ (fun h => hji h.symm), if_neg (by omega)]

theorem endLoop_fst_eq (v : List Int) (n : Nat) (cur : List Int) (hlen : cur.length = n)
    (hnone : (endLoop v n 0 cur).2 = none) :
    (endLoop v n 0 cur).1 = (List.range n).map fun j => v.getD j 0 := by
  apply List.ext_getElem
  · rw [endLoop_fst_length]
    simp [hlen]
  · intro j hj1 hj2
    have hjn : j < n := by simpa using hj2
    have hgd := endLoop_fst_getD v n 0 cur (by omega) hnone j
    rw [if_pos ⟨Nat.zero_le j, by omega⟩] at hgd
    rw [← List.getD_eq_getElem _ 0 hj1, hgd, ← getD_map_range (fun j => v.getD j 0) n j hjn,
      List.getD_eq_getElem _ 0 hj2]

/-! Lemmas about the `writeTrackBin` loop.  Its checks read only the heights
of the fixed state `s`, never the vector being written, so the success
condition needs no hypotheses on `cur`. -/

theorem binLoop_fst_length (s : CCDMultiTrack) (v : List Int) :
    ∀ (k i : Nat) (cur : List Int), ((binLoop s v k i cur).1).length = cur.length := by
  intro k
  induction k with
  | zero => intro i cur; rfl
  | succ k ih =>
    intro i cur
    simp only [binLoop]
    split
    · rfl
    · split
      · rfl
      · rw [ih]
        simp

theorem binLoop_none_iff (s : CCDMultiTrack) (v : List Int) :
    ∀ (k i : Nat) (cur : List Int),
      ((binLoop s v k i cur).2 = none ↔
        ∀ j, i ≤ j → j < i + k →
          1 ≤ v.getD j 0 ∧ Int.tmod (TrackHeight s j) (v.getD j 0) = 0) := by
  intro k
  induction k with
  | zero =>
    intro i cur
    constructor
    · intro _ j h1 h2
      omega
    · intro _
      rfl
  | succ k ih =>
    intro i cur
    simp only [binLoop]
    by_cases h1 : v.getD i 0 < 1
    · rw [if_pos h1]
      constructor
      · intro h
        exact Option.noConfusion h
      · intro hall
        exact absurd ((hall i (le_refl i) (by omega)).1) (by omega)
    · rw [if_neg h1]
      by_cases h2 : Int.tmod (TrackHeight s i) (v.getD i 0) ≠ 0
      · rw [if_pos h2]
        constructor
        · intro h
          exact Option.noConfusion h
        · intro hall
          exact absurd ((hall i (le_refl i) (by omega)).2) h2
      · rw [if_neg h2]
        rw [ih (i + 1) (cur.set i (v.getD i 0))]
        constructor
        · intro hall j hij hjk
          by_cases hji : j = i
          · subst hji
            exact ⟨by omega, by omega⟩
          · exact hall j (by omega) (by omega)
        · intro hall j hij hjk
          exact hall j (by omega) (by omega)

theorem binLoop_fst_getD (s : CCDMultiTrack) (v : List Int) :
    ∀ (k i : Nat) (cur : List Int), i + k ≤ cur.length →
      (binLoop s v k i cur).2 = none →
      ∀ j, ((binLoop s v k i cur).1).getD j 0 =
        if i ≤ j ∧ j < i + k then v.getD j 0 else cur.getD j 0 := by
  intro k
  induction k with
  | zero =>
    intro i cur _ _ j
    simp only [binLoop]
    rw [if_neg (by omega)]
  | succ k ih =>
    intro i cur hlen hnone j
    simp only [binLoop] at hnone ⊢
    by_cases h1 : v.getD i 0 < 1
    · rw [if_pos h1] at hnone
      exact Option.noConfusion hnone
    · rw [if_neg h1] at hnone ⊢
      by_cases h2 : Int.tmod (TrackHeight s i) (v.getD i 0) ≠ 0
      · rw [if_pos h2] at hnone
        exact Option.noConfusion hnone
      · rw [if_neg h2] at hnone ⊢
        have hi : i < cur.length := by omega
        have hlen2 : (i + 1) + k ≤ (cur.set i (v.getD i 0)).length := by
          simp [List.length_set]
          omega
        rw [ih (i + 1) _ hlen2 hnone j]
        by_cases hja : i + 1 ≤ j ∧ j < i + 1 + k
        · rw [if_pos hja, if_pos (by omega)]
        · rw [if_neg hja]
          by_cases hji : j = i
          · subst hji
            rw [getD_set_self cur j _ hi, if_pos (by omega)]
          · rw [getD_set_ne cur i j _ (fun h => hji h.symm), if_neg (by omega)]

theorem binLoop_fst_eq (s : CCDMultiTrack) (v : List Int) (n : Nat) (cur : List Int)
    (hlen : cur.length = n) (hnone : (binLoop s v n 0 cur).2 = none) :
    (binLoop s v n 0 cur).1 = (List.range n).map fun j => v.getD j 0 := by
  apply List.ext_getElem
  · rw [binLoop_fst_length]
    simp [hlen]
  · intro j hj1 hj2
    have hjn : j < n := by simpa using hj2
    have hgd := binLoop_fst_getD s v n 0 cur (by omega) hnone j
    rw [if_pos ⟨Nat.zero_le j, by omega⟩] at hgd
    rw [← List.getD_eq_getElem _ 0 hj1, hgd, ← getD_map_range (fun j => v.getD j 0) n j hjn,
      List.getD_eq_getElem _ 0 hj2]

/-! Lemmas about the three mutators. -/

theorem writeTrackStart_err (s : CCDMultiTrack) (v : List Int) (n : Nat) :
    (writeTrackStart s v n).2.2 = (startLoop v n 0 (resize s.mTrackStart n)).2 := by
  unfold writeTrackStart
  rcases hl : startLoop v n 0 (resize s.mTrackStart n) with ⟨cur, e⟩
  cases e with
  | none => simp
  | some e => simp

/-- `writeTrackStart` returns normally exactly on arrays passing its
validation (each value at least 1 and above the new previous value). -/
theorem writeTrackStart_none_iff (s : CCDMultiTrack) (v : List Int) (n : Nat) :
    (writeTrackStart s v n).2.2 = none ↔ startsValid v n := by
  rw [writeTrackStart_err,
    startLoop_none_iff v n 0 _ (by rw [resize_length]; omega)
      (fun j hj => absurd hj (Nat.not_lt_zero j))]
  constructor
  · intro h i hi
    exact h i (Nat.zero_le i) (by omega)
  · intro h j _ hj
    exact h j (by omega)

/-- Normal form of a returning `writeTrackStart` call: the new start vector
is the incoming data; the candidate end and bin vectors are recomputed
against the new starts and the old `mTrackEnd`/`mTrackBin`, each committed
and notified only when it differs from the stored vector. -/
theorem writeTrackStart_success_eq (s : CCDMultiTrack) (v : List Int) (n : Nat)
    (h : startsValid v n) :
    writeTrackStart s v n =
      (let s1 : CCDMultiTrack := { s with mTrackStart := (List.range n).map fun j => v.getD j 0 }
       let newEnd := (List.range n).map fun i => TrackStart s1 i + TrackHeight s1 i - 1
       let newBin := (List.range n).map fun i => TrackBin s1 i
       let r2 := if s1.mTrackEnd = newEnd then (s1, ([] : List Notify))
                 else ({ s1 with mTrackEnd := newEnd }, [Notify.endChanged newEnd])
       let r3 := if r2.1.mTrackBin = newBin then (r2.1, ([] : List Notify))
                 else ({ r2.1 with mTrackBin := newBin }, [Notify.binChanged newBin])
       (r3.1, r2.2 ++ r3.2, none)) := by
  have hnone : (startLoop v n 0 (resize s.mTrackStart n)).2 = none := by
    rw [startLoop_none_iff v n 0 _ (by rw [resize_length]; omega)
      (fun j hj => absurd hj (Nat.not_lt_zero j))]
    intro j _ hj
    exact h j (by omega)
  have hfst := startLoop_fst_eq v n (resize s.mTrackStart n) (resize_length _ _) hnone
  have hpair : startLoop v n 0 (resize s.mTrackStart n) =
      ((List.range n).map fun j => v.getD j 0, none) := by
    rw [← hfst, ← hnone]
  unfold writeTrackStart
  rw [hpair]

/-- A throwing `writeTrackStart` call leaves `mTrackEnd` and `mTrackBin`
untouched and issues no notification (the throw happens in the first loop,
before the recomputation). -/
theorem writeTrackStart_fail (s : CCDMultiTrack) (v : List Int) (n : Nat)
    (h : (writeTrackStart s v n).2.2 ≠ none) :
    (writeTrackStart s v n).1.mTrackEnd = s.mTrackEnd ∧
    (writeTrackStart s v n).1.mTrackBin = s.mTrackBin ∧
    (writeTrackStart s v n).2.1 = [] := by
  cases he : (startLoop v n 0 (resize s.mTrackStart n)).2 with
  | none =>
    rw [writeTrackStart_err, he] at h
    exact absurd rfl h
  | some e =>
    obtain ⟨cur, hl⟩ : ∃ cur, startLoop v n 0 (resize s.mTrackStart n) = (cur, some e) :=
      ⟨(startLoop v n 0 (resize s.mTrackStart n)).1, by rw [← he]⟩
    have hw : writeTrackStart s v n = ({ s with mTrackStart := cur }, [], some e) := by
      unfold writeTrackStart
      rw [hl]
    rw [hw]
    exact ⟨rfl, rfl, rfl⟩

/-- A returning `writeTrackStart` call leaves all three vectors with length
`nElements`. -/
theorem writeTrackStart_success_lengths (s : CCDMultiTrack) (v : List Int) (n : Nat)
    (h : (writeTrackStart s v n).2.2 = none) :
    (writeTrackStart s v n).1.mTrackStart.length = n ∧
    (writeTrackStart s v n).1.mTrackEnd.length = n ∧
    (writeTrackStart s v n).1.mTrackBin.length = n := by
  have hv : startsValid v n := (writeTrackStart_none_iff s v n).1 h
  rw [writeTrackStart_success_eq s v n hv]
  dsimp only
  split
  next heq =>
    split
    next heq2 =>
      exact ⟨by simp, by rw [heq]; simp, by rw [heq2]; simp⟩
    next heq2 =>
      exact ⟨by simp, by rw [heq]; simp, by simp⟩
  next heq =>
    split
    next heq2 =>
      exact ⟨by simp, by simp, by rw [heq2]; simp⟩
    next heq2 =>
      exact ⟨by simp, by simp, by simp⟩

theorem writeTrackEnd_err (s : CCDMultiTrack) (v : List Int) (n : Nat) :
    (writeTrackEnd s v n).2.2 = (endLoop v n 0 (resize s.mTrackEnd n)).2 := by
  unfold writeTrackEnd
  rcases hl : endLoop v n 0 (resize s.mTrackEnd n) with ⟨cur, e⟩
  cases e with
  | none =>
    dsimp only
    split
    · rfl
    · rfl
  | some e => simp

/-- `writeTrackEnd` returns normally exactly on arrays passing its
validation (each value at least 2 and above the new previous value). -/
theorem writeTrackEnd_none_iff (s : CCDMultiTrack) (v : List Int) (n : Nat) :
    (writeTrackEnd s v n).2.2 = none ↔ endsValid v n := by
  rw [writeTrackEnd_err,
    endLoop_none_iff v n 0 _ (by rw [resize_length]; omega)
      (fun j hj => absurd hj (Nat.not_lt_zero j))]
  constructor
  · intro h i hi
    exact h i (Nat.zero_le i) (by omega)
  · intro h j _ hj
    exact h j (by omega)

/-- Normal form of a returning `writeTrackEnd` call: the new end vector is
the incoming data, the candidate bin vector is the vector of track heights
against the new ends, committed and notified only when it differs. -/
theorem writeTrackEnd_success_eq (s : CCDMultiTrack) (v : List Int) (n : Nat)
    (h : endsValid v n) :
    writeTrackEnd s v n =
      (let s1 : CCDMultiTrack := { s with mTrackEnd := (List.range n).map fun j => v.getD j 0 }
       let newBin := (List.range n).map fun i => TrackHeight s1 i
       if s1.mTrackBin = newBin then (s1, [], none)
       else ({ s1 with mTrackBin := newBin }, [Notify.binChanged newBin], none)) := by
  have hnone : (endLoop v n 0 (resize s.mTrackEnd n)).2 = none := by
    rw [endLoop_none_iff v n 0 _ (by rw [resize_length]; omega)
      (fun j hj => absurd hj (Nat.not_lt_zero j))]
    intro j _ hj
    exact h j (by omega)
  have hfst := endLoop_fst_eq v n (resize s.mTrackEnd n) (resize_length _ _) hnone
  have hpair : endLoop v n 0 (resize s.mTrackEnd n) =
      ((List.range n).map fun j => v.getD j 0, none) := by
    rw [← hfst, ← hnone]
  unfold writeTrackEnd
  rw [hpair]

theorem writeTrackBin_eq (s : CCDMultiTrack) (v : List Int) (n : Nat) :
    writeTrackBin s v n =
      ({ s with mTrackBin := (binLoop s v n 0 (resize s.mTrackBin n)).1 }, [],
        (binLoop s v n 0 (resize s.mTrackBin n)).2) := by
  unfold writeTrackBin
  rcases hl : binLoop s v n 0 (resize s.mTrackBin n) with ⟨cur, e⟩
  rfl

/-- `writeTrackBin` returns normally exactly on arrays passing its
validation (each value at least 1, dividing the current track height). -/
theorem writeTrackBin_none_iff (s : CCDMultiTrack) (v : List Int) (n : Nat) :
    (writeTrackBin s v n).2.2 = none ↔ binsValid s v n := by
  rw [writeTrackBin_eq]
  dsimp only
  rw [binLoop_none_iff s v n 0 (resize s.mTrackBin n)]
  constructor
  · intro h i hi
    exact h i (Nat.zero_le i) (by omega)
  · intro h j _ hj
    exact h j (by omega)

theorem getD_map_range_any (f : Nat → Int) (n i : Nat) (d : Int) (h : i < n) :
    ((List.range n).map f).getD i d = f i := by
  rw [List.getD_eq_getElem _ d (by simpa using h)]
  simp

theorem TrackHeight_congr (x y : CCDMultiTrack) (hs : x.mTrackStart = y.mTrackStart)
    (he : x.mTrackEnd = y.mTrackEnd) (i : Nat) : TrackHeight x i = TrackHeight y i := by
  unfold TrackHeight TrackEnd TrackStart
  rw [hs, he]

theorem TrackHeight_set_bin (x : CCDMultiTrack) (b : List Int) (i : Nat) :
    TrackHeight { x with mTrackBin := b } i = TrackHeight x i := rfl

theorem TrackBin_set_bin (x : CCDMultiTrack) (b : List Int) (i : Nat) :
    TrackBin { x with mTrackBin := b } i = b.getD i (TrackHeight x i) := rfl

/-- The fields of the state a returning `writeTrackEnd` call leaves behind,
and the notifications it issued: starts untouched, ends replaced by the
incoming data, bin replaced by the track heights against the new ends,
a bin-changed notification exactly when that differs from the stored bin. -/
theorem writeTrackEnd_success_state (s : CCDMultiTrack) (v : List Int) (n : Nat)
    (h : endsValid v n) :
    (writeTrackEnd s v n).1.mTrackStart = s.mTrackStart ∧
    (writeTrackEnd s v n).1.mTrackEnd = ((List.range n).map fun j => v.getD j 0) ∧
    (writeTrackEnd s v n).1.mTrackBin =
      ((List.range n).map fun i =>
        TrackHeight { s with mTrackEnd := (List.range n).map fun j => v.getD j 0 } i) ∧
    (writeTrackEnd s v n).2.1 =
      (if s.mTrackBin = ((List.range n).map fun i =>
          TrackHeight { s with mTrackEnd := (List.range n).map fun j => v.getD j 0 } i)
       then ([] : List Notify)
       else [Notify.binChanged ((List.range n).map fun i =>
          TrackHeight { s with mTrackEnd := (List.range n).map fun j => v.getD j 0 } i)]) := by
  rw [writeTrackEnd_success_eq s v n h]
  dsimp only
  split
  next heq => exact ⟨rfl, rfl, heq, rfl⟩
  next heq => exact ⟨rfl, rfl, rfl, rfl⟩

/-- Folding addition over a list is its sum. -/
theorem foldl_add_map_sum (f : Nat → Int) (l : List Nat) (a : Int) :
    l.foldl (fun acc i => acc + f i) a = a + (l.map f).sum := by
  induction l generalizing a with
  | nil => simp
  | cons x xs ih =>
    simp [ih]
    ring

/-! Claim theorems. -/

/-- C1, counterexample: from the prior state start=[1,5], end=[1,5],
bin=[1,1], the failing call `writeTrackStart [5,3]` (non-ascending) throws,
yet the stored start array afterwards is [5,5], not the prior [1,5] — the
failed call is not a complete no-op, refuting the claim as stated. -/
theorem writeTrackStart_failure_mutates_start_cex :
    (writeTrackStart
        { mCCDMultiTrackStart := 0, mCCDMultiTrackEnd := 1, mCCDMultiTrackBin := 2,
          mTrackStart := [1, 5], mTrackEnd := [1, 5], mTrackBin := [1, 1] }
        [5, 3] 2).2.2 ≠ none ∧
    (writeTrackStart
        { mCCDMultiTrackStart := 0, mCCDMultiTrackEnd := 1, mCCDMultiTrackBin := 2,
          mTrackStart := [1, 5], mTrackEnd := [1, 5], mTrackBin := [1, 1] }
        [5, 3] 2).1.mTrackStart = [5, 5] := by
  decide

/-- C1, amended: for every prior state and every input array failing the
start validation (some value < 1, or some value not above its new
predecessor), `writeTrackStart` throws, emits no notification, and leaves
the stored end and bin arrays exactly as they were; the start array,
however, may be left resized and partially overwritten. -/
theorem writeTrackStart_failure_end_bin_unchanged (s : CCDMultiTrack) (v : List Int) (n : Nat)
    (h : ¬ startsValid v n) :
    (writeTrackStart s v n).2.2 ≠ none ∧
    (writeTrackStart s v n).2.1 = [] ∧
    (writeTrackStart s v n).1.mTrackEnd = s.mTrackEnd ∧
    (writeTrackStart s v n).1.mTrackBin = s.mTrackBin := by
  have herr : (writeTrackStart s v n).2.2 ≠ none := fun hn =>
    h ((writeTrackStart_none_iff s v n).1 hn)
  have hf := writeTrackStart_fail s v n herr
  exact ⟨herr, hf.2.2, hf.1, hf.2.1⟩

/-- C1, witness: the failing input [5,3] on the freshly constructed state. -/
theorem writeTrackStart_failure_end_bin_unchanged_witness :
    ¬ startsValid [5, 3] 2 ∧
    ((writeTrackStart (construct 0) [5, 3] 2).2.2 ≠ none ∧
     (writeTrackStart (construct 0) [5, 3] 2).2.1 = [] ∧
     (writeTrackStart (construct 0) [5, 3] 2).1.mTrackEnd = (construct 0).mTrackEnd ∧
     (writeTrackStart (construct 0) [5, 3] 2).1.mTrackBin = (construct 0).mTrackBin) :=
  ⟨by decide, writeTrackStart_failure_end_bin_unchanged (construct 0) [5, 3] 2 (by decide)⟩

/-- C3, counterexample: starts [1,5] (all arrays length 2) followed by a
successful `writeTrackBin [1]` with count 1 leaves start with length 2 and
bin with length 1 — the three arrays do not all match the count of the most
recent write, refuting the claim as stated. -/
theorem lengths_not_always_equal_cex :
    (writeTrackStart (construct 0) [1, 5] 2).2.2 = none ∧
    (writeTrackBin (writeTrackStart (construct 0) [1, 5] 2).1 [1] 1).2.2 = none ∧
    (writeTrackBin (writeTrackStart (construct 0) [1, 5] 2).1 [1] 1).1.mTrackStart.length = 2 ∧
    (writeTrackBin (writeTrackStart (construct 0) [1, 5] 2).1 [1] 1).1.mTrackBin.length = 1 := by
  decide

/-- C3, amended: a successful `writeTrackStart` leaves all three arrays with
length `count`; a successful `writeTrackEnd` resizes only end and bin to
`count`, leaving start untouched; `writeTrackBin` resizes only bin to
`count`, leaving start and end untouched. -/
theorem lengths_after_each_mutator (s : CCDMultiTrack) (v : List Int) (n : Nat) :
    ((writeTrackStart s v n).2.2 = none →
      (writeTrackStart s v n).1.mTrackStart.length = n ∧
      (writeTrackStart s v n).1.mTrackEnd.length = n ∧
      (writeTrackStart s v n).1.mTrackBin.length = n) ∧
    ((writeTrackEnd s v n).2.2 = none →
      (writeTrackEnd s v n).1.mTrackStart = s.mTrackStart ∧
      (writeTrackEnd s v n).1.mTrackEnd.length = n ∧
      (writeTrackEnd s v n).1.mTrackBin.length = n) ∧
    ((writeTrackBin s v n).1.mTrackStart = s.mTrackStart ∧
      (writeTrackBin s v n).1.mTrackEnd = s.mTrackEnd ∧
      (writeTrackBin s v n).1.mTrackBin.length = n) := by
  refine ⟨writeTrackStart_success_lengths s v n, ?_, ?_⟩
  · intro h
    obtain ⟨hstart, hend, hbin, -⟩ :=
      writeTrackEnd_success_state s v n ((writeTrackEnd_none_iff s v n).1 h)
    refine ⟨hstart, ?_, ?_⟩
    · rw [hend]
      simp
    · rw [hbin]
      simp
  · rw [writeTrackBin_eq]
    exact ⟨rfl, rfl, by rw [binLoop_fst_length, resize_length]⟩

/-- C3, witness: on starts [1,5] from the fresh state every hypothesis is
concrete and each mutator leaves the stated lengths. -/
theorem lengths_after_each_mutator_witness :
    (writeTrackStart (construct 0) [1, 5] 2).2.2 = none ∧
    ((writeTrackStart (construct 0) [1, 5] 2).1.mTrackStart.length = 2 ∧
     (writeTrackStart (construct 0) [1, 5] 2).1.mTrackEnd.length = 2 ∧
     (writeTrackStart (construct 0) [1, 5] 2).1.mTrackBin.length = 2) :=
  ⟨by decide, (lengths_after_each_mutator (construct 0) [1, 5] 2).1 (by decide)⟩

/-- C4: both ascending validations compare each incoming value with the new
incoming value at the previous index (already stored by the previous loop
iteration), and the call returns normally exactly when every value meets the
minimum (1 for starts, 2 for ends) and each value at i > 0 is strictly above
the incoming value at i-1. -/
theorem ascending_validation_vs_new_values (s : CCDMultiTrack) (v : List Int) (n : Nat) :
    ((writeTrackStart s v n).2.2 = none ↔
      ∀ i, i < n → 1 ≤ v.getD i 0 ∧ (0 < i → v.getD (i - 1) 0 < v.getD i 0)) ∧
    ((writeTrackEnd s v n).2.2 = none ↔
      ∀ i, i < n → 2 ≤ v.getD i 0 ∧ (0 < i → v.getD (i - 1) 0 < v.getD i 0)) :=
  ⟨writeTrackStart_none_iff s v n, writeTrackEnd_none_iff s v n⟩

/-- C4, witness: [2,3] ascends with respect to the new values even though it
is not above the stored starts [5,9], and the call succeeds. -/
theorem ascending_validation_vs_new_values_witness :
    (writeTrackStart
        { mCCDMultiTrackStart := 0, mCCDMultiTrackEnd := 1, mCCDMultiTrackBin := 2,
          mTrackStart := [5, 9], mTrackEnd := [5, 9], mTrackBin := [1, 1] }
        [2, 3] 2).2.2 = none :=
  (ascending_validation_vs_new_values
      { mCCDMultiTrackStart := 0, mCCDMultiTrackEnd := 1, mCCDMultiTrackBin := 2,
        mTrackStart := [5, 9], mTrackEnd := [5, 9], mTrackBin := [1, 1] }
      [2, 3] 2).1.mpr (by decide)

/-- C6: from the freshly constructed (empty) state, `writeTrackStart
[1,5,10]` returns normally and yields stored end [1,5,10], stored bin
[1,1,1], per-track data height 1 for every track, and total data height 3. -/
theorem starts_1_5_10_from_empty :
    (writeTrackStart (construct 0) [1, 5, 10] 3).2.2 = none ∧
    (writeTrackStart (construct 0) [1, 5, 10] 3).1.mTrackEnd = [1, 5, 10] ∧
    (writeTrackStart (construct 0) [1, 5, 10] 3).1.mTrackBin = [1, 1, 1] ∧
    (∀ i, i < 3 → DataHeight (writeTrackStart (construct 0) [1, 5, 10] 3).1 i = 1) ∧
    DataHeightTotal (writeTrackStart (construct 0) [1, 5, 10] 3).1 = 3 := by
  decide

/-- C6, witness: track 0 of the resulting state has data height 1. -/
theorem starts_1_5_10_from_empty_witness :
    DataHeight (writeTrackStart (construct 0) [1, 5, 10] 3).1 0 = 1 :=
  starts_1_5_10_from_empty.2.2.2.1 0 (by decide)

/-- C8: the parameterless `DataHeight` accumulates, over every current track
(indices below `size`, the length of the start array), the per-track data
height `height(i) / bin(i)` (truncated integer division); on an empty track
set it returns 0. -/
theorem total_data_height_sum (s : CCDMultiTrack) :
    DataHeightTotal s =
      ((List.range (size s)).map fun i => Int.tdiv (TrackHeight s i) (TrackBin s i)).sum ∧
    (size s = 0 → DataHeightTotal s = 0) := by
  constructor
  · rw [DataHeightTotal, foldl_add_map_sum]
    rw [zero_add]
    rfl
  · intro h
    rw [DataHeightTotal, h]
    rfl

/-- C8, witness: the freshly constructed state has no tracks and total data
height 0. -/
theorem total_data_height_sum_witness :
    size (construct 0) = 0 ∧ DataHeightTotal (construct 0) = 0 :=
  ⟨by decide, (total_data_height_sum (construct 0)).2 (by decide)⟩

/-- C9: a returning `writeTrackBin` call replaces only the stored bin array:
start and end afterwards are identical to their prior values, and no
notification is issued. -/
theorem bin_write_frame (s : CCDMultiTrack) (v : List Int) (n : Nat)
    (_h : (writeTrackBin s v n).2.2 = none) :
    (writeTrackBin s v n).1.mTrackStart = s.mTrackStart ∧
    (writeTrackBin s v n).1.mTrackEnd = s.mTrackEnd ∧
    (writeTrackBin s v n).2.1 = [] := by
  rw [writeTrackBin_eq]
  exact ⟨rfl, rfl, rfl⟩

/-- C9, witness: binning [2] over a single track of height 4. -/
theorem bin_write_frame_witness :
    (writeTrackBin
        { mCCDMultiTrackStart := 0, mCCDMultiTrackEnd := 1, mCCDMultiTrackBin := 2,
          mTrackStart := [1], mTrackEnd := [4], mTrackBin := [4] } [2] 1).2.2 = none ∧
    ((writeTrackBin
        { mCCDMultiTrackStart := 0, mCCDMultiTrackEnd := 1, mCCDMultiTrackBin := 2,
          mTrackStart := [1], mTrackEnd := [4], mTrackBin := [4] } [2] 1).1.mTrackStart = [1] ∧
     (writeTrackBin
        { mCCDMultiTrackStart := 0, mCCDMultiTrackEnd := 1, mCCDMultiTrackBin := 2,
          mTrackStart := [1], mTrackEnd := [4], mTrackBin := [4] } [2] 1).1.mTrackEnd = [4] ∧
     (writeTrackBin
        { mCCDMultiTrackStart := 0, mCCDMultiTrackEnd := 1, mCCDMultiTrackBin := 2,
          mTrackStart := [1], mTrackEnd := [4], mTrackBin := [4] } [2] 1).2.1 = []) :=
  ⟨by decide,
    bin_write_frame
      { mCCDMultiTrackStart := 0, mCCDMultiTrackEnd := 1, mCCDMultiTrackBin := 2,
        mTrackStart := [1], mTrackEnd := [4], mTrackBin := [4] } [2] 1 (by decide)⟩

/-- C10: with the three parameter identifiers pairwise distinct (as the
framework assigns them), `writeInt32Array` routes a matching reason to
exactly the corresponding mutator, returning `asynSuccess` whenever that
mutator returns normally, and answers any other reason with `asynError`
and no state change and no notification. -/
theorem writeInt32Array_dispatch (s : CCDMultiTrack) (reason : Int) (v : List Int) (n : Nat)
    (h1 : s.mCCDMultiTrackStart ≠ s.mCCDMultiTrackEnd)
    (h2 : s.mCCDMultiTrackStart ≠ s.mCCDMultiTrackBin)
    (h3 : s.mCCDMultiTrackEnd ≠ s.mCCDMultiTrackBin) :
    (reason = s.mCCDMultiTrackStart →
      writeInt32Array s reason v n =
        ((writeTrackStart s v n).1, (writeTrackStart s v n).2.1,
          (writeTrackStart s v n).2.2, AsynStatus.asynSuccess)) ∧
    (reason = s.mCCDMultiTrackEnd →
      writeInt32Array s reason v n =
        ((writeTrackEnd s v n).1, (writeTrackEnd s v n).2.1,
          (writeTrackEnd s v n).2.2, AsynStatus.asynSuccess)) ∧
    (reason = s.mCCDMultiTrackBin →
      writeInt32Array s reason v n =
        ((writeTrackBin s v n).1, (writeTrackBin s v n).2.1,
          (writeTrackBin s v n).2.2, AsynStatus.asynSuccess)) ∧
    (reason ≠ s.mCCDMultiTrackStart → reason ≠ s.mCCDMultiTrackEnd →
      reason ≠ s.mCCDMultiTrackBin →
      writeInt32Array s reason v n = (s, [], none, AsynStatus.asynError)) := by
  refine ⟨?_, ?_, ?_, ?_⟩
  · intro hf
    unfold writeInt32Array
    rw [if_pos hf]
  · intro hf
    unfold writeInt32Array
    rw [if_neg (fun he => h1 (he.symm.trans hf)), if_pos hf]
  · intro hf
    unfold writeInt32Array
    rw [if_neg (fun he => h2 (he.symm.trans hf)), if_neg (fun he => h3 (he.symm.trans hf)),
      if_pos hf]
  · intro hf1 hf2 hf3
    unfold writeInt32Array
    rw [if_neg hf1, if_neg hf2, if_neg hf3]

/-- C10, witness: on the freshly constructed state (identifiers 0, 1, 2) an
unknown reason 5 answers `asynError` with no state change. -/
theorem writeInt32Array_dispatch_witness :
    writeInt32Array (construct 0) 5 [1] 1 = (construct 0, [], none, AsynStatus.asynError) :=
  (writeInt32Array_dispatch (construct 0) 5 [1] 1 (by decide) (by decide) (by decide)).2.2.2
    (by decide) (by decide) (by decide)

/-- C2, counterexample: two reachable violations. (a) From the fresh state,
`writeTrackStart [5]` then `writeTrackEnd [2]` both return normally, yet the
resulting state has end[0] = 2 < 5 = start[0]. (b) From the fresh state the
four calls starts [1], ends [4], bins [2], starts [2] all return normally,
yet afterwards height(0) = 3 is not divisible by bin(0) = 2 — so neither
`end[i] >= start[i]` nor the divisibility invariant holds after every
successful mutator, refuting the claim as stated. -/
theorem invariant_end_ge_start_cex :
    ((writeTrackStart (construct 0) [5] 1).2.2 = none ∧
     (writeTrackEnd (writeTrackStart (construct 0) [5] 1).1 [2] 1).2.2 = none ∧
     TrackEnd (writeTrackEnd (writeTrackStart (construct 0) [5] 1).1 [2] 1).1 0 <
       TrackStart (writeTrackEnd (writeTrackStart (construct 0) [5] 1).1 [2] 1).1 0) ∧
    ((writeTrackStart (construct 0) [1] 1).2.2 = none ∧
     (writeTrackEnd (writeTrackStart (construct 0) [1] 1).1 [4] 1).2.2 = none ∧
     (writeTrackBin (writeTrackEnd (writeTrackStart (construct 0) [1] 1).1 [4] 1).1
        [2] 1).2.2 = none ∧
     (writeTrackStart (writeTrackBin
        (writeTrackEnd (writeTrackStart (construct 0) [1] 1).1 [4] 1).1 [2] 1).1
        [2] 1).2.2 = none ∧
     Int.tmod
       (TrackHeight (writeTrackStart (writeTrackBin
          (writeTrackEnd (writeTrackStart (construct 0) [1] 1).1 [4] 1).1 [2] 1).1
          [2] 1).1 0)
       (TrackBin (writeTrackStart (writeTrackBin
          (writeTrackEnd (writeTrackStart (construct 0) [1] 1).1 [4] 1).1 [2] 1).1
          [2] 1).1 0) ≠ 0) := by
  decide

/-- C2, amended: after a returning `writeTrackEnd` or `writeTrackBin` call,
`height(i) % bin(i) == 0` holds for every track index i < count (after
`writeTrackEnd` because bin is set equal to the height, after `writeTrackBin`
because divisibility is validated); neither `end[i] >= start[i]` nor
divisibility after `writeTrackStart` is enforced by the code. -/
theorem divisibility_after_end_bin_writes (s : CCDMultiTrack) (v : List Int) (n : Nat) :
    ((writeTrackEnd s v n).2.2 = none →
      ∀ i, i < n →
        Int.tmod (TrackHeight (writeTrackEnd s v n).1 i)
          (TrackBin (writeTrackEnd s v n).1 i) = 0) ∧
    ((writeTrackBin s v n).2.2 = none →
      ∀ i, i < n →
        Int.tmod (TrackHeight (writeTrackBin s v n).1 i)
          (TrackBin (writeTrackBin s v n).1 i) = 0) := by
  constructor
  · intro hsucc i hi
    obtain ⟨hstart, hend, hbin, -⟩ :=
      writeTrackEnd_success_state s v n ((writeTrackEnd_none_iff s v n).1 hsucc)
    have hh : TrackHeight (writeTrackEnd s v n).1 i =
        TrackHeight { s with mTrackEnd := (List.range n).map fun j => v.getD j 0 } i :=
      TrackHeight_congr (writeTrackEnd s v n).1
        { s with mTrackEnd := (List.range n).map fun j => v.getD j 0 } hstart hend i
    have hb : TrackBin (writeTrackEnd s v n).1 i =
        TrackHeight { s with mTrackEnd := (List.range n).map fun j => v.getD j 0 } i := by
      unfold TrackBin
      rw [hbin, getD_map_range_any _ _ _ _ hi]
    rw [hb, hh]
    exact Int.tmod_self
  · intro hsucc i hi
    have hv : binsValid s v n := (writeTrackBin_none_iff s v n).1 hsucc
    rw [writeTrackBin_eq] at hsucc
    have hfst := binLoop_fst_eq s v n (resize s.mTrackBin n) (resize_length _ _) hsucc
    rw [writeTrackBin_eq]
    dsimp only
    rw [TrackHeight_set_bin, TrackBin_set_bin, hfst, getD_map_range_any _ _ _ _ hi]
    exact (hv i hi).2

/-- C2, witness: ends [3,8,14] over starts [1,5,10] leave heights [3,4,5]
and bins [3,4,5], divisible at every index. -/
theorem divisibility_after_end_bin_writes_witness :
    (writeTrackEnd
        { mCCDMultiTrackStart := 0, mCCDMultiTrackEnd := 1, mCCDMultiTrackBin := 2,
          mTrackStart := [1, 5, 10], mTrackEnd := [1, 5, 10], mTrackBin := [1, 1, 1] }
        [3, 8, 14] 3).2.2 = none ∧
    (∀ i, i < 3 →
      Int.tmod
        (TrackHeight (writeTrackEnd
          { mCCDMultiTrackStart := 0, mCCDMultiTrackEnd := 1, mCCDMultiTrackBin := 2,
            mTrackStart := [1, 5, 10], mTrackEnd := [1, 5, 10], mTrackBin := [1, 1, 1] }
          [3, 8, 14] 3).1 i)
        (TrackBin (writeTrackEnd
          { mCCDMultiTrackStart := 0, mCCDMultiTrackEnd := 1, mCCDMultiTrackBin := 2,
            mTrackStart := [1, 5, 10], mTrackEnd := [1, 5, 10], mTrackBin := [1, 1, 1] }
          [3, 8, 14] 3).1 i) = 0) :=
  ⟨by decide,
    (divisibility_after_end_bin_writes
      { mCCDMultiTrackStart := 0, mCCDMultiTrackEnd := 1, mCCDMultiTrackBin := 2,
        mTrackStart := [1, 5, 10], mTrackEnd := [1, 5, 10], mTrackBin := [1, 1, 1] }
      [3, 8, 14] 3).1 (by decide)⟩

/-- C5: after a returning `writeTrackEnd` call the stored bin array is the
recomputed candidate: it has length `count`, its entry at every i < count
equals `end[i] - start[i] + 1` computed from the just-stored end and the
existing start (accessor semantics, fallback 0 beyond the start array), and
a bin-changed notification carrying the new bin array is emitted exactly
when the candidate differs by value from the previously stored bin array. -/
theorem end_write_recomputes_bin (s : CCDMultiTrack) (v : List Int) (n : Nat)
    (h : (writeTrackEnd s v n).2.2 = none) :
    (writeTrackEnd s v n).1.mTrackBin.length = n ∧
    (∀ i, i < n →
      (writeTrackEnd s v n).1.mTrackBin.getD i 0 =
        (writeTrackEnd s v n).1.mTrackEnd.getD i 0 - TrackStart s i + 1) ∧
    ((writeTrackEnd s v n).2.1 = [] ↔ s.mTrackBin = (writeTrackEnd s v n).1.mTrackBin) ∧
    ((writeTrackEnd s v n).2.1 =
        [Notify.binChanged ((writeTrackEnd s v n).1.mTrackBin)] ↔
      s.mTrackBin ≠ (writeTrackEnd s v n).1.mTrackBin) := by
  obtain ⟨hstart, hend, hbin, hns⟩ :=
    writeTrackEnd_success_state s v n ((writeTrackEnd_none_iff s v n).1 h)
  refine ⟨by rw [hbin]; simp, ?_, ?_, ?_⟩
  · intro i hi
    rw [hbin, hend, getD_map_range_any _ _ _ _ hi, getD_map_range_any _ _ _ _ hi]
    unfold TrackHeight TrackEnd TrackStart
    dsimp only
    rw [getD_map_range_any _ _ _ _ hi]
    ring
  · rw [hns, hbin]
    by_cases heq : s.mTrackBin =
        ((List.range n).map fun i =>
          TrackHeight { s with mTrackEnd := (List.range n).map fun j => v.getD j 0 } i)
    · rw [if_pos heq]
      exact ⟨fun _ => heq, fun _ => rfl⟩
    · rw [if_neg heq]
      exact ⟨fun hc => absurd hc (by simp), fun hc => absurd hc heq⟩
  · rw [hns, hbin]
    by_cases heq : s.mTrackBin =
        ((List.range n).map fun i =>
          TrackHeight { s with mTrackEnd := (List.range n).map fun j => v.getD j 0 } i)
    · rw [if_pos heq]
      exact ⟨fun hc => absurd hc.symm (by simp), fun hc => absurd heq hc⟩
    · rw [if_neg heq]
      exact ⟨fun _ => heq, fun _ => rfl⟩

/-- C5, witness: ends [3,8,14] over starts [1,5,10] store bin [3,4,5] and
notify the change. -/
theorem end_write_recomputes_bin_witness :
    (writeTrackEnd
        { mCCDMultiTrackStart := 0, mCCDMultiTrackEnd := 1, mCCDMultiTrackBin := 2,
          mTrackStart := [1, 5, 10], mTrackEnd := [1, 5, 10], mTrackBin := [1, 1, 1] }
        [3, 8, 14] 3).2.2 = none ∧
    (∀ i, i < 3 →
      (writeTrackEnd
        { mCCDMultiTrackStart := 0, mCCDMultiTrackEnd := 1, mCCDMultiTrackBin := 2,
          mTrackStart := [1, 5, 10], mTrackEnd := [1, 5, 10], mTrackBin := [1, 1, 1] }
        [3, 8, 14] 3).1.mTrackBin.getD i 0 =
        (writeTrackEnd
          { mCCDMultiTrackStart := 0, mCCDMultiTrackEnd := 1, mCCDMultiTrackBin := 2,
            mTrackStart := [1, 5, 10], mTrackEnd := [1, 5, 10], mTrackBin := [1, 1, 1] }
          [3, 8, 14] 3).1.mTrackEnd.getD i 0 -
          TrackStart
            { mCCDMultiTrackStart := 0, mCCDMultiTrackEnd := 1, mCCDMultiTrackBin := 2,
              mTrackStart := [1, 5, 10], mTrackEnd := [1, 5, 10], mTrackBin := [1, 1, 1] }
            i + 1) :=
  ⟨by decide,
    (end_write_recomputes_bin
      { mCCDMultiTrackStart := 0, mCCDMultiTrackEnd := 1, mCCDMultiTrackBin := 2,
        mTrackStart := [1, 5, 10], mTrackEnd := [1, 5, 10], mTrackBin := [1, 1, 1] }
      [3, 8, 14] 3 (by decide)).2.1⟩

/-- C7: calling `writeTrackEnd` twice in succession with the same array
notifies at most on the first call and never on the second: if the first
call returns normally with state `s1`, the second call returns `s1`
unchanged and emits no notification (the stored bin is compared by value
with the recomputed candidate, which now coincides with it). -/
theorem end_write_idempotent (s : CCDMultiTrack) (v : List Int) (n : Nat)
    (s1 : CCDMultiTrack) (ns1 : List Notify)
    (h : writeTrackEnd s v n = (s1, ns1, none)) :
    writeTrackEnd s1 v n = (s1, [], none) := by
  have hv : endsValid v n := (writeTrackEnd_none_iff s v n).1 (by rw [h])
  have hNF := writeTrackEnd_success_eq s v n hv
  rw [h] at hNF
  dsimp only at hNF
  rw [writeTrackEnd_success_eq s1 v n hv]
  dsimp only
  split at hNF
  next heq =>
    have hs1 : s1 = { s with mTrackEnd := (List.range n).map fun j => v.getD j 0 } := by
      have hfst := congrArg Prod.fst hNF
      simpa using hfst
    subst hs1
    split
    next h2 => rfl
    next h2 => exact absurd heq h2
  next heq =>
    have hs1 : s1 = { s with
        mTrackEnd := (List.range n).map fun j => v.getD j 0,
        mTrackBin := (List.range n).map fun i =>
          TrackHeight { s with mTrackEnd := (List.range n).map fun j => v.getD j 0 } i } := by
      have hfst := congrArg Prod.fst hNF
      simpa using hfst
    subst hs1
    split
    next h2 => rfl
    next h2 => exact absurd rfl h2

/-- C7, witness: the first call ends [3,8,14] over starts [1,5,10] notifies
bin [3,4,5]; the second identical call returns the same state and notifies
nothing. -/
theorem end_write_idempotent_witness :
    writeTrackEnd
        { mCCDMultiTrackStart := 0, mCCDMultiTrackEnd := 1, mCCDMultiTrackBin := 2,
          mTrackStart := [1, 5, 10], mTrackEnd := [3, 8, 14], mTrackBin := [3, 4, 5] }
        [3, 8, 14] 3 =
      ({ mCCDMultiTrackStart := 0, mCCDMultiTrackEnd := 1, mCCDMultiTrackBin := 2,
         mTrackStart := [1, 5, 10], mTrackEnd := [3, 8, 14], mTrackBin := [3, 4, 5] },
        [], none) :=
  end_write_idempotent
    { mCCDMultiTrackStart := 0, mCCDMultiTrackEnd := 1, mCCDMultiTrackBin := 2,
      mTrackStart := [1, 5, 10], mTrackEnd := [1, 5, 10], mTrackBin := [1, 1, 1] }
    [3, 8, 14] 3
    { mCCDMultiTrackStart := 0, mCCDMultiTrackEnd := 1, mCCDMultiTrackBin := 2,
      mTrackStart := [1, 5, 10], mTrackEnd := [3, 8, 14], mTrackBin := [3, 4, 5] }
    [Notify.binChanged [3, 4, 5]] (by decide)

end CCDMultiTrack
